import Mathlib

/-!
Shallow embedding of the withhaotian/Spatiotemporal-Prediction repository.

The embedding covers:
* `src/nn/ConvLSTM/ConvLSTM.py` — the `ConvLSTM` module (`Encoder.forward`,
  `Forecast.forward`, `ConvLSTM.forward`) and the `ConvLSTM_MovingMNIST`
  step methods (`training_step`, `validation_step`, `predict_step`);
* `src/utils/trainer/trainer.py` — the `Trainer.fit` / `Trainer.predict`
  control flow: checkpoint loading, the epoch loop with checkpoint saving,
  the per-batch gradient update, and the validation-loss aggregation.

Tensors are modelled as dimension tuples together with a total data
function into `ℚ`.  The `ConvLSTMCell` (a stacked convolutional gate; its
source lives outside the embedded files) and the `nn.Conv2d` projection are
kept as abstract function parameters; the theorems hypothesise only the
shape behaviour that any such layer has.  Python exceptions are modelled
with `Except`.
-/

/-- A 4-D tensor `(d0, d1, d2, d3)`, layout `(batch, channel, height, width)`
in the ConvLSTM code, with a total data function. -/
structure Tensor4 where
  d0 : ℕ
  d1 : ℕ
  d2 : ℕ
  d3 : ℕ
  data : ℕ → ℕ → ℕ → ℕ → ℚ

/-- A 5-D tensor `(d0, d1, d2, d3, d4)`, layout `(batch, sequence, channel,
height, width)` for the model inputs and outputs. -/
structure Tensor5 where
  d0 : ℕ
  d1 : ℕ
  d2 : ℕ
  d3 : ℕ
  d4 : ℕ
  data : ℕ → ℕ → ℕ → ℕ → ℕ → ℚ

/-- Default 4-D tensor (used only as the `getD` fallback). -/
def t4dflt : Tensor4 := ⟨0, 0, 0, 0, fun _ _ _ _ => 0⟩

/-- The `.shape` of a 4-D tensor. -/
def Tensor4.shape4 (t : Tensor4) : ℕ × ℕ × ℕ × ℕ := (t.d0, t.d1, t.d2, t.d3)

/-- The `.shape` of a 5-D tensor. -/
def Tensor5.shape5 (t : Tensor5) : ℕ × ℕ × ℕ × ℕ × ℕ :=
  (t.d0, t.d1, t.d2, t.d3, t.d4)

/-- `torch.zeros(b, c, h, w)`. -/
def zeros4 (b c h w : ℕ) : Tensor4 := ⟨b, c, h, w, fun _ _ _ _ => 0⟩

/-- `inputs[:, s]`: select time step `s` of a `(B, S, C, H, W)` tensor. -/
def Tensor5.slice (t : Tensor5) (s : ℕ) : Tensor4 :=
  ⟨t.d0, t.d2, t.d3, t.d4, fun b c y x => t.data b s c y x⟩

/-- `torch.cat(l, dim=1)`: concatenate 4-D tensors along the channel
dimension (remaining dimensions are taken from the head, as `torch.cat`
requires them to agree). -/
def cat1 : List Tensor4 → Tensor4
  | [] => t4dflt
  | t :: ts =>
    let rest := cat1 ts
    ⟨t.d0, t.d1 + rest.d1, t.d2, t.d3,
      fun b ch y x =>
        if ch < t.d1 then t.data b ch y x else rest.data b (ch - t.d1) y x⟩

/-- `torch.stack(l, dim=0)`: stack 4-D tensors into a 5-D tensor whose
leading dimension is the list position. -/
def stack0 (l : List Tensor4) : Tensor5 :=
  ⟨l.length, (l.getD 0 t4dflt).d0, (l.getD 0 t4dflt).d1,
    (l.getD 0 t4dflt).d2, (l.getD 0 t4dflt).d3,
    fun s b c y x => (l.getD s t4dflt).data b c y x⟩

/-- `.permute(1, 0, 2, 3, 4)` on a 5-D tensor. -/
def permute10234 (t : Tensor5) : Tensor5 :=
  ⟨t.d1, t.d0, t.d2, t.d3, t.d4, fun a b c d e => t.data b a c d e⟩

/-- `torch.clamp(t, lo, hi)` applied elementwise to a 5-D tensor. -/
def clamp5 (t : Tensor5) (lo hi : ℚ) : Tensor5 :=
  { t with data := fun a b c d e => min (max (t.data a b c d e) lo) hi }

/-- The interface of one `ConvLSTMCell`: `(x, h, c) ↦ (h', c')`.  The cell
itself (convolutional gating) lives outside the embedded files and is kept
abstract. -/
def Cell : Type := Tensor4 → Tensor4 → Tensor4 → Tensor4 × Tensor4

/-- Default cell (used only as the `getD` fallback). -/
def cellDflt : Cell := fun _ h c => (h, c)

/-- A cell maps a hidden/cell state pair to a pair of the same shape as the
incoming hidden state — true of `ConvLSTMCell`, whose gates are
shape-preserving convolutions on `(B, hidden, H, W)` states. -/
def CellShapePreserving (cl : Cell) : Prop :=
  ∀ x h c, (cl x h c).1.shape4 = h.shape4 ∧ (cl x h c).2.shape4 = h.shape4

/-- One time step of the stacked cells (`ConvLSTM.py` lines 125–128 and
179–182): the first cell consumes `x` with its own previous `h, c`; each
higher cell consumes the just-updated hidden state of the layer below
together with its own previous `h, c`. -/
def stepFrom : List Cell → Tensor4 → List Tensor4 → List Tensor4 →
    List Tensor4 × List Tensor4
  | cl :: cs, x, h0 :: hs, c0 :: ct =>
    let p := cl x h0 c0
    let r := stepFrom cs p.1 hs ct
    (p.1 :: r.1, p.2 :: r.2)
  | _, _, _, _ => ([], [])

/-- The zero initial hidden/cell state lists of `Encoder.forward`
(lines 112–119): one `torch.zeros(batch, hidden_channels_list[i], height,
width)` per stacked layer, for h and for c. -/
def encInit (hl : List ℕ) (b hgt wid : ℕ) : List Tensor4 × List Tensor4 :=
  (hl.map fun ch => zeros4 b ch hgt wid, hl.map fun ch => zeros4 b ch hgt wid)

/-- `Encoder.forward` (lines 102–130): zero-initialise the per-layer states,
then `for s in range(sequence)` update all stacked layers on `inputs[:, s]`;
return the final state lists. -/
def encoderForward (ecells : List Cell) (hl : List ℕ) (inputs : Tensor5) :
    List Tensor4 × List Tensor4 :=
  (List.range inputs.d1).foldl
    (fun st s => stepFrom ecells (inputs.slice s) st.1 st.2)
    (encInit hl inputs.d0 inputs.d3 inputs.d4)

/-- The encoder state after `s` time steps, written as a recursion (used to
characterise the `foldl` loop of `encoderForward`). -/
def encStates (ecells : List Cell) (hl : List ℕ) (inputs : Tensor5) :
    ℕ → List Tensor4 × List Tensor4
  | 0 => encInit hl inputs.d0 inputs.d3 inputs.d4
  | s + 1 =>
    let st := encStates ecells hl inputs s
    stepFrom ecells (inputs.slice s) st.1 st.2

/-- The `for _ in range(out_len)` loop body of `Forecast.forward`
(lines 176–188): feed an all-zero frame to the stacked cells, concatenate
the new hidden states along channels, apply the final 1×1 convolution, and
collect the predicted frame.  Returns the final `h`, `c` and the prediction
list in time order.  `b`, `hgt`, `wid` are read once from `h[0].shape`
before the loop, as in the source (line 172). -/
def forecastIter (fcells : List Cell) (convLast : Tensor4 → Tensor4)
    (inC b hgt wid : ℕ) :
    ℕ → List Tensor4 → List Tensor4 →
      List Tensor4 × List Tensor4 × List Tensor4
  | 0, h, c => (h, c, [])
  | n + 1, h, c =>
    let x := zeros4 b inC hgt wid
    let p := stepFrom fcells x h c
    let pred := convLast (cat1 p.1)
    let r := forecastIter fcells convLast inC b hgt wid n p.1 p.2
    (r.1, r.2.1, pred :: r.2.2)

/-- `Forecast.forward` (lines 165–192): run the prediction loop for
`out_len` steps, then `torch.stack(prediction, dim=0).permute(1,0,2,3,4)`.
`torch.stack` of an empty list raises, modelled by `none`. -/
def forecastForward (fcells : List Cell) (convLast : Tensor4 → Tensor4)
    (inC : ℕ) (h c : List Tensor4) (out_len : ℕ) : Option Tensor5 :=
  let b := (h.getD 0 t4dflt).d0
  let hgt := (h.getD 0 t4dflt).d2
  let wid := (h.getD 0 t4dflt).d3
  let r := forecastIter fcells convLast inC b hgt wid out_len h c
  match r.2.2 with
  | [] => none
  | _ :: _ => some (permute10234 (stack0 r.2.2))

/-- `ConvLSTM.forward` (lines 35–38): run the encoder over the whole input
sequence, then the forecast phase on the resulting states. -/
def convlstmForward (ecells fcells : List Cell) (convLast : Tensor4 → Tensor4)
    (inC : ℕ) (hl : List ℕ) (inputs : Tensor5) (out_len : ℕ) :
    Option Tensor5 :=
  let states := encoderForward ecells hl inputs
  forecastForward fcells convLast inC states.1 states.2 out_len

/-- Number of elements of a 5-D tensor, as a rational. -/
def numel5 (t : Tensor5) : ℚ := ((t.d0 * t.d1 * t.d2 * t.d3 * t.d4 : ℕ) : ℚ)

/-- `nn.MSELoss()`: the mean over all elements of the squared difference. -/
def mse5 (x y : Tensor5) : ℚ :=
  (∑ a ∈ Finset.range x.d0, ∑ b ∈ Finset.range x.d1,
    ∑ c ∈ Finset.range x.d2, ∑ d ∈ Finset.range x.d3,
      ∑ e ∈ Finset.range x.d4, (x.data a b c d e - y.data a b c d e) ^ 2)
    / numel5 x

/-- `ConvLSTM_MovingMNIST.training_step` (lines 51–57).  `fwd` is the
module's `self.forward`; `rp` / `rpb` are `reshape_patch` /
`reshape_patch_back` (defined outside the embedded files), kept abstract. -/
def trainingStep (fwd : Tensor5 → ℕ → Tensor5) (rp rpb : Tensor5 → Tensor5)
    (inputs labels : Tensor5) : ℚ :=
  let patched_inputs := rp inputs
  let patched_outputs := fwd patched_inputs 10
  let outputs := rpb patched_outputs
  let outputs := clamp5 outputs 0 1
  mse5 outputs labels

/-- `ConvLSTM_MovingMNIST.validation_step` (lines 59–65). -/
def validationStep (fwd : Tensor5 → ℕ → Tensor5) (rp rpb : Tensor5 → Tensor5)
    (inputs labels : Tensor5) : ℚ :=
  let patched_inputs := rp inputs
  let patched_outputs := fwd patched_inputs 10
  let outputs := rpb patched_outputs
  let outputs := clamp5 outputs 0 1
  mse5 outputs labels

/-- `ConvLSTM_MovingMNIST.predict_step` (lines 67–72): same pipeline, but
the clamped output tensor is returned. -/
def predictStep (fwd : Tensor5 → ℕ → Tensor5) (rp rpb : Tensor5 → Tensor5)
    (inputs : Tensor5) : Tensor5 :=
  let patched_inputs := rp inputs
  let patched_outputs := fwd patched_inputs 10
  let outputs := rpb patched_outputs
  clamp5 outputs 0 1

/-- A checkpoint dictionary as saved/loaded by `Trainer` (`trainer.py`
lines 139–147): epoch index, model weights, optimizer state, and an
optional learning-rate-scheduler state (the `lr_scheduler` key is present
iff the model has a scheduler). -/
structure Checkpoint (M O L : Type) where
  epoch : ℕ
  state_dict : M
  optimizer : O
  lr_scheduler : Option L

/-- The mutable state of the model seen by the trainer: weights, optimizer
state, and the optional scheduler state. -/
structure TrainerState (M O L : Type) where
  weights : M
  optim : O
  sched : Option L

/-- The restoring part of `Trainer.fit` (lines 49–54): load the model
weights and optimizer state from the checkpoint; load the scheduler state
only when the checkpoint has an `lr_scheduler` key and the model has a
scheduler. -/
def loadInto {M O L : Type} (st : TrainerState M O L)
    (ck : Checkpoint M O L) : TrainerState M O L :=
  { weights := ck.state_dict
    optim := ck.optimizer
    sched :=
      if ck.lr_scheduler.isSome && st.sched.isSome then ck.lr_scheduler
      else st.sched }

/-- The `states_dict` saved at the end of an epoch (lines 139–147): the
epoch index, the current model weights and optimizer state, plus the
scheduler state when the model has one. -/
def makeCheckpoint {M O L : Type} (e : ℕ) (st : TrainerState M O L) :
    Checkpoint M O L :=
  { epoch := e
    state_dict := st.weights
    optimizer := st.optim
    lr_scheduler := st.sched }

/-- The model state after `k` epochs of an epoch loop that starts at epoch
`start` (the body abstracts one full training+validation epoch). -/
def epochsIter {M O L : Type}
    (body : ℕ → TrainerState M O L → TrainerState M O L) (start : ℕ)
    (st : TrainerState M O L) : ℕ → TrainerState M O L
  | 0 => st
  | k + 1 => body (start + k) (epochsIter body start st k)

/-- The epoch loop of `Trainer.fit` (lines 62–147): `for epoch in
range(start_epoch, max_epoch + 1)`, run the epoch body and then
`torch.save` the checkpoint for that epoch.  Returns the final model state
and the list of saved checkpoints in order. -/
def runEpochs {M O L : Type}
    (body : ℕ → TrainerState M O L → TrainerState M O L)
    (start maxEpoch : ℕ) (st0 : TrainerState M O L) :
    TrainerState M O L × List (Checkpoint M O L) :=
  (List.range' start (maxEpoch + 1 - start)).foldl
    (fun acc e =>
      let st := body e acc.1
      (st, acc.2 ++ [makeCheckpoint e st]))
    (st0, [])

/-- The Python exceptions the trainer can raise. -/
inductive TrainError : Type where
  | fileNotFound (path : String) : TrainError
  | typeError : TrainError
  | zeroDivision : TrainError
deriving DecidableEq

/-- The checkpoint-loading phase of `Trainer.fit` (lines 47–54): with no
checkpoint path, start at epoch 1; otherwise `torch.load` the file — this
call is NOT wrapped in any `try`, so a missing file raises
`FileNotFoundError` out of `fit` — restore the model state and start at
the saved epoch plus one.  `fs` maps a path to the checkpoint stored there
(`none` = no such file). -/
def fitLoadPhase {M O L : Type}
    (fs : String → Option (Checkpoint M O L)) (ckpt_path : Option String)
    (init : TrainerState M O L) :
    Except TrainError (ℕ × TrainerState M O L) :=
  match ckpt_path with
  | none => .ok (1, init)
  | some p =>
    match fs p with
    | none => .error (.fileNotFound p)
    | some ck => .ok (ck.epoch + 1, loadInto init ck)

/-- `Trainer.fit` (lines 40–152) at the epoch/checkpoint granularity:
load-phase, then the epoch loop with per-epoch checkpoint saving.  An
exception from the load phase propagates. -/
def fitRun {M O L : Type}
    (fs : String → Option (Checkpoint M O L)) (ckpt_path : Option String)
    (init : TrainerState M O L) (maxEpoch : ℕ)
    (body : ℕ → TrainerState M O L → TrainerState M O L) :
    Except TrainError (TrainerState M O L × List (Checkpoint M O L)) :=
  match fitLoadPhase fs ckpt_path init with
  | .error e => .error e
  | .ok se => .ok (runEpochs body se.1 maxEpoch se.2)

/-- The checkpoint-loading phase of `Trainer.predict` (lines 160–167):
`torch.load` is wrapped in `try/except`; a missing file writes a
diagnostic line to stderr and execution continues with the unloaded model.
Returns the stderr lines and the resulting model state. -/
def predictLoadPhase {M O L : Type}
    (fs : String → Option (Checkpoint M O L)) (ckpt_path : String)
    (init : TrainerState M O L) : List String × TrainerState M O L :=
  match fs ckpt_path with
  | none =>
    (["\nthe file " ++ ckpt_path ++ " does not exist.\n"], init)
  | some ck => ([], { init with weights := ck.state_dict })

/-- The value returned by a model's `training_step` / `validation_step`
as the trainer inspects it (`STEP_OUTPUT`): a loss tensor, a dictionary,
or anything else. -/
inductive StepOut : Type where
  | tensor (v : ℚ) : StepOut
  | dict (m : List (String × ℚ)) : StepOut
  | other : StepOut
deriving DecidableEq

/-- Observable events of one training batch, in execution order. -/
inductive Ev : Type where
  | zeroGrad : Ev
  | trainStep : Ev
  | backward : Ev
  | stderrMsg : Ev
  | optStep : Ev
  | schedStep : Ev
deriving DecidableEq

/-- The backward dispatch of `Trainer.fit` (lines 78–86): a `Tensor`
output is backpropagated; a dict output is backpropagated via its
`"loss"` key, a missing key being caught and reported on stderr; any
other output hits `raise TypeError`. -/
def backwardEvents : StepOut → Except TrainError (List Ev)
  | .tensor _ => .ok [.backward]
  | .dict m =>
    match m.lookup "loss" with
    | some _ => .ok [.backward]
    | none => .ok [.stderrMsg]
  | .other => .error .typeError

/-- One iteration of the training-batch loop of `Trainer.fit`
(lines 67–92) as its event trace: `optimizer.zero_grad`, the
`training_step` loss computation, the backward dispatch, then
`optimizer_step` and `lr_scheduler_step`. -/
def batchTrace (o : StepOut) : Except TrainError (List Ev) :=
  match backwardEvents o with
  | .error e => .error e
  | .ok mid => .ok ([Ev.zeroGrad, Ev.trainStep] ++ mid ++ [Ev.optStep, Ev.schedStep])

/-- The validation loop of `Trainer.fit` (lines 105–123): each batch's
output appends its loss to `loss_list` (a dict missing the `"loss"` key
appends nothing and writes to stderr; any other non-Tensor non-dict
output raises `TypeError`).  Accumulates `(stderr lines, loss_list)`. -/
def valFold : List StepOut → List String × List ℚ →
    Except TrainError (List String × List ℚ)
  | [], acc => .ok acc
  | o :: rest, acc =>
    match o with
    | .tensor v => valFold rest (acc.1, acc.2 ++ [v])
    | .dict m =>
      match m.lookup "loss" with
      | some v => valFold rest (acc.1, acc.2 ++ [v])
      | none =>
        valFold rest
          (acc.1 ++ ["\nif the validation outputs is a dictionary, it must has a key named 'loss'.\n"],
            acc.2)
    | .other => .error .typeError

/-- The per-epoch validation phase of `Trainer.fit` (lines 105–129): run
the validation loop, then compute `mean_loss = sum(loss_list) /
len(loss_list)` — an unguarded division that raises `ZeroDivisionError`
when `loss_list` is empty. -/
def validationEpoch (outs : List StepOut) :
    Except TrainError (List String × ℚ) :=
  match valFold outs ([], []) with
  | .error e => .error e
  | .ok acc =>
    if acc.2.length = 0 then .error .zeroDivision
    else .ok (acc.1, acc.2.sum / (acc.2.length : ℚ))

/-- A `StepOut` from which the trainer can extract a loss: a tensor, or a
dict with a `"loss"` key. -/
def yieldsLoss : StepOut → Bool
  | .tensor _ => true
  | .dict m => (m.lookup "loss").isSome
  | .other => false

/-- The resumption behaviour of `Trainer.fit`: with a checkpoint found at
`p`, the run restores weights and optimizer state from it and executes the
epoch loop from the saved epoch plus one through `maxEpoch`; with no
checkpoint path, the loop starts at epoch 1. -/
def FitResumeSpec {M O L : Type} (fs : String → Option (Checkpoint M O L))
    (p : String) (ck : Checkpoint M O L) (init : TrainerState M O L)
    (maxEpoch : ℕ) (body : ℕ → TrainerState M O L → TrainerState M O L) :
    Prop :=
  (fitRun fs (some p) init maxEpoch body
      = .ok (runEpochs body (ck.epoch + 1) maxEpoch (loadInto init ck))
    ∧ (loadInto init ck).weights = ck.state_dict
    ∧ (loadInto init ck).optim = ck.optimizer
    ∧ (runEpochs body (ck.epoch + 1) maxEpoch (loadInto init ck)).2.map
          Checkpoint.epoch
        = List.range' (ck.epoch + 1) (maxEpoch + 1 - (ck.epoch + 1)))
  ∧ fitRun fs none init maxEpoch body = .ok (runEpochs body 1 maxEpoch init)
  ∧ (runEpochs body 1 maxEpoch init).2.map Checkpoint.epoch
      = List.range' 1 maxEpoch

/-- The behaviour of the trainer on a missing checkpoint file: `predict`
reports on stderr and continues, `fit` propagates the exception. -/
def MissingCkptSpec {M O L : Type} (fs : String → Option (Checkpoint M O L))
    (p : String) (init : TrainerState M O L) (maxEpoch : ℕ)
    (body : ℕ → TrainerState M O L → TrainerState M O L) : Prop :=
  predictLoadPhase fs p init
      = (["\nthe file " ++ p ++ " does not exist.\n"], init)
    ∧ fitRun fs (some p) init maxEpoch body = .error (.fileNotFound p)

/-- Characterisation of `Encoder.forward`: the time loop runs the `S` steps
in order starting from per-layer all-zero states, and within one step the
layer-`i` cell consumes the frame (for `i = 0`) or the just-updated hidden
state of layer `i - 1` (for `i ≥ 1`) together with layer `i`'s previous
hidden and cell states. -/
def EncoderForwardSpec (ecells : List Cell) (hl : List ℕ) (inputs : Tensor5)
    (x : Tensor4) (h c : List Tensor4) (s i : ℕ) : Prop :=
  encoderForward ecells hl inputs = encStates ecells hl inputs inputs.d1
  ∧ encStates ecells hl inputs 0
      = (hl.map fun ch => zeros4 inputs.d0 ch inputs.d3 inputs.d4,
          hl.map fun ch => zeros4 inputs.d0 ch inputs.d3 inputs.d4)
  ∧ encStates ecells hl inputs (s + 1)
      = stepFrom ecells (inputs.slice s) (encStates ecells hl inputs s).1
          (encStates ecells hl inputs s).2
  ∧ (stepFrom ecells x h c).1.length = ecells.length
  ∧ (stepFrom ecells x h c).2.length = ecells.length
  ∧ (stepFrom ecells x h c).1.getD i t4dflt
      = ((ecells.getD i cellDflt)
          (if i = 0 then x else (stepFrom ecells x h c).1.getD (i - 1) t4dflt)
          (h.getD i t4dflt) (c.getD i t4dflt)).1
  ∧ (stepFrom ecells x h c).2.getD i t4dflt
      = ((ecells.getD i cellDflt)
          (if i = 0 then x else (stepFrom ecells x h c).1.getD (i - 1) t4dflt)
          (h.getD i t4dflt) (c.getD i t4dflt)).2

/-- Characterisation of `ConvLSTM.forward` for a positive `out_len`: the
encoder phase runs first and its states feed the forecast phase; each
forecast step feeds an all-zero frame to the stacked cells; the result is
a tensor of shape `(batch, out_len, in_channels, height, width)`. -/
def ConvLSTMForwardSpec (ecells fcells : List Cell)
    (convLast : Tensor4 → Tensor4) (inC : ℕ) (hl : List ℕ)
    (inputs : Tensor5) (out_len n b hgt wid : ℕ) (h c : List Tensor4) :
    Prop :=
  convlstmForward ecells fcells convLast inC hl inputs out_len
      = forecastForward fcells convLast inC
          (encoderForward ecells hl inputs).1
          (encoderForward ecells hl inputs).2 out_len
  ∧ (forecastIter fcells convLast inC b hgt wid (n + 1) h c).2.2
      = convLast (cat1 (stepFrom fcells (zeros4 b inC hgt wid) h c).1)
          :: (forecastIter fcells convLast inC b hgt wid n
              (stepFrom fcells (zeros4 b inC hgt wid) h c).1
              (stepFrom fcells (zeros4 b inC hgt wid) h c).2).2.2
  ∧ ∃ t : Tensor5,
      convlstmForward ecells fcells convLast inC hl inputs out_len = some t
      ∧ t.shape5 = (inputs.d0, out_len, inC, inputs.d3, inputs.d4)

-- ### Helper lemmas

theorem epochsIter_shift {M O L : Type}
    (body : ℕ → TrainerState M O L → TrainerState M O L) (start : ℕ)
    (st : TrainerState M O L) (k : ℕ) :
    epochsIter body (start + 1) (body start st) k
      = epochsIter body start st (k + 1) := by
  induction k with
  | zero => simp [epochsIter]
  | succ k ih =>
    simp only [epochsIter, ih]
    congr 1
    omega

theorem runEpochs_foldl {M O L : Type}
    (body : ℕ → TrainerState M O L → TrainerState M O L) (n : ℕ) :
    ∀ (start : ℕ) (st : TrainerState M O L) (acc : List (Checkpoint M O L)),
    (List.range' start n).foldl
        (fun acc e =>
          let s := body e acc.1
          (s, acc.2 ++ [makeCheckpoint e s]))
        (st, acc)
      = (epochsIter body start st n,
          acc ++ (List.range n).map fun k =>
            makeCheckpoint (start + k) (epochsIter body start st (k + 1))) := by
  induction n with
  | zero => intro start st acc; simp [epochsIter]
  | succ n ih =>
    intro start st acc
    rw [List.range'_succ]
    simp only [List.foldl_cons]
    rw [ih]
    have hfun : (fun k =>
        makeCheckpoint (start + 1 + k)
          (epochsIter body (start + 1) (body start st) (k + 1)))
        = fun k =>
            makeCheckpoint (start + (k + 1)) (epochsIter body start st (k + 2)) := by
      funext k
      rw [epochsIter_shift]
      congr 1
      omega
    refine Prod.ext ?_ ?_
    · exact epochsIter_shift body start st n
    · simp only [hfun, List.range_succ_eq_map, List.map_cons, List.map_map]
      simp [epochsIter, Function.comp_def, List.append_assoc]

theorem runEpochs_eq {M O L : Type}
    (body : ℕ → TrainerState M O L → TrainerState M O L)
    (start maxEpoch : ℕ) (st0 : TrainerState M O L) :
    runEpochs body start maxEpoch st0
      = (epochsIter body start st0 (maxEpoch + 1 - start),
          (List.range (maxEpoch + 1 - start)).map fun k =>
            makeCheckpoint (start + k) (epochsIter body start st0 (k + 1))) := by
  unfold runEpochs
  rw [runEpochs_foldl]
  simp

theorem runEpochs_epochs {M O L : Type}
    (body : ℕ → TrainerState M O L → TrainerState M O L)
    (start maxEpoch : ℕ) (st0 : TrainerState M O L) :
    (runEpochs body start maxEpoch st0).2.map Checkpoint.epoch
      = List.range' start (maxEpoch + 1 - start) := by
  rw [runEpochs_eq]
  simp only [List.map_map]
  rw [List.range'_eq_map_range]
  congr 1

-- ### C3

/-- C3: given a checkpoint path whose file holds checkpoint `ck`,
`Trainer.fit` restores the model weights and optimizer state from `ck` and
runs the epoch loop from `ck.epoch + 1` up to and including `maxEpoch`;
with no checkpoint path the loop starts at epoch 1. -/
theorem fit_resume_from_checkpoint {M O L : Type}
    (fs : String → Option (Checkpoint M O L)) (p : String)
    (ck : Checkpoint M O L) (init : TrainerState M O L) (maxEpoch : ℕ)
    (body : ℕ → TrainerState M O L → TrainerState M O L)
    (hfs : fs p = some ck) :
    FitResumeSpec fs p ck init maxEpoch body := by
  refine ⟨⟨?_, rfl, rfl, runEpochs_epochs _ _ _ _⟩, rfl, ?_⟩
  · simp [fitRun, fitLoadPhase, hfs]
  · have h := runEpochs_epochs body 1 maxEpoch init
    simpa using h

/-- Witness for C3 at a concrete checkpoint. -/
theorem fit_resume_from_checkpoint_witness :
    FitResumeSpec (fun _ => some (⟨1, 5, 7, none⟩ : Checkpoint ℕ ℕ ℕ))
      "ckpt_000001.pth" ⟨1, 5, 7, none⟩ ⟨0, 0, none⟩ 3 (fun _ st => st) :=
  fit_resume_from_checkpoint _ _ _ _ _ _ rfl

-- ### C4

/-- C4: the epoch loop of `Trainer.fit` saves exactly one checkpoint per
completed epoch; the checkpoint of epoch `start + k` carries that epoch
index, the model weights and the optimizer state current after that
epoch. -/
theorem fit_checkpoint_per_epoch {M O L : Type}
    (body : ℕ → TrainerState M O L → TrainerState M O L)
    (start maxEpoch : ℕ) (st0 : TrainerState M O L) :
    runEpochs body start maxEpoch st0
        = (epochsIter body start st0 (maxEpoch + 1 - start),
            (List.range (maxEpoch + 1 - start)).map fun k =>
              makeCheckpoint (start + k) (epochsIter body start st0 (k + 1)))
      ∧ (runEpochs body start maxEpoch st0).2.length = maxEpoch + 1 - start
      ∧ ∀ (e : ℕ) (st : TrainerState M O L),
          (makeCheckpoint e st).epoch = e
          ∧ (makeCheckpoint e st).state_dict = st.weights
          ∧ (makeCheckpoint e st).optimizer = st.optim := by
  refine ⟨runEpochs_eq body start maxEpoch st0, ?_, fun e st => ⟨rfl, rfl, rfl⟩⟩
  rw [runEpochs_eq]
  simp

-- ### C5 (corrected)

/-- C5 counterexample: `Trainer.fit` does not guard its `torch.load`; with
a missing checkpoint file the `FileNotFoundError` propagates out of `fit`
instead of producing a stderr diagnostic. -/
theorem fit_missing_checkpoint_raises :
    fitRun (fun _ => none) (some "missing.pth")
        (⟨0, 0, none⟩ : TrainerState ℕ ℕ ℕ) 3 (fun _ st => st)
      = .error (.fileNotFound "missing.pth") := rfl

/-- C5 amended: on a missing checkpoint file, `Trainer.predict` writes a
diagnostic to stderr and continues, while `Trainer.fit` with a non-None
`ckpt_path` propagates the exception. -/
theorem missing_checkpoint_handling {M O L : Type}
    (fs : String → Option (Checkpoint M O L)) (p : String)
    (init : TrainerState M O L) (maxEpoch : ℕ)
    (body : ℕ → TrainerState M O L → TrainerState M O L)
    (h : fs p = none) :
    MissingCkptSpec fs p init maxEpoch body := by
  constructor
  · simp [predictLoadPhase, h]
  · simp [fitRun, fitLoadPhase, h]

/-- Witness for the amended C5 at a concrete missing file. -/
theorem missing_checkpoint_handling_witness :
    MissingCkptSpec (fun _ => (none : Option (Checkpoint ℕ ℕ ℕ)))
      "missing.pth" ⟨0, 0, none⟩ 3 (fun _ st => st) :=
  missing_checkpoint_handling _ _ _ _ _ rfl

-- ### C6 (corrected)

/-- C6 counterexample: a `training_step` output that is neither a Tensor
nor a dict hits `raise TypeError` in `Trainer.fit` (line 86) — an
unhandled exception, not a stderr diagnostic. -/
theorem malformed_training_output_raises :
    batchTrace StepOut.other = .error TrainError.typeError := rfl

/-- C6 amended: a dict output missing the `"loss"` key is caught and
reported on stderr (and the batch continues to the optimizer step), while
any output that is neither a Tensor nor a dict raises `TypeError`. -/
theorem malformed_training_output_handling (m : List (String × ℚ))
    (h : m.lookup "loss" = none) :
    batchTrace (StepOut.dict m)
        = .ok [Ev.zeroGrad, Ev.trainStep, Ev.stderrMsg, Ev.optStep, Ev.schedStep]
      ∧ batchTrace StepOut.other = .error TrainError.typeError := by
  refine ⟨?_, rfl⟩
  simp [batchTrace, backwardEvents, h]

/-- Witness for the amended C6 at the empty dict. -/
theorem malformed_training_output_handling_witness :
    batchTrace (StepOut.dict [])
        = .ok [Ev.zeroGrad, Ev.trainStep, Ev.stderrMsg, Ev.optStep, Ev.schedStep]
      ∧ batchTrace StepOut.other = .error TrainError.typeError :=
  malformed_training_output_handling [] rfl

-- ### C7

/-- C7: for a training batch whose `training_step` output carries a loss
(a Tensor, or a dict with a `"loss"` key), the batch executes exactly
`zero_grad`, the loss computation, `backward`, `optimizer_step`,
`lr_scheduler_step`, in that order. -/
theorem training_batch_update_order (o : StepOut)
    (h : (∃ v, o = StepOut.tensor v)
      ∨ ∃ m v, o = StepOut.dict m ∧ m.lookup "loss" = some v) :
    batchTrace o
      = .ok [Ev.zeroGrad, Ev.trainStep, Ev.backward, Ev.optStep, Ev.schedStep] := by
  rcases h with ⟨v, rfl⟩ | ⟨m, v, rfl, hm⟩
  · rfl
  · simp [batchTrace, backwardEvents, hm]

/-- Witness for C7 at a concrete Tensor loss. -/
theorem training_batch_update_order_witness :
    ((∃ v, StepOut.tensor 0 = StepOut.tensor v)
      ∨ ∃ m v, StepOut.tensor 0 = StepOut.dict m ∧ m.lookup "loss" = some v)
    ∧ batchTrace (StepOut.tensor 0)
        = .ok [Ev.zeroGrad, Ev.trainStep, Ev.backward, Ev.optStep, Ev.schedStep] :=
  ⟨Or.inl ⟨0, rfl⟩, training_batch_update_order _ (Or.inl ⟨0, rfl⟩)⟩

-- ### C10 (corrected)

/-- C10 counterexample: a non-empty validation loader does not make the
division safe — a single batch whose output is a dict without a `"loss"`
key appends nothing to `loss_list`, and `sum(loss_list)/len(loss_list)`
divides by zero. -/
theorem validation_mean_loss_zero_division :
    validationEpoch [StepOut.dict []] = .error TrainError.zeroDivision
      ∧ [StepOut.dict []] ≠ ([] : List StepOut) := by
  exact ⟨rfl, by simp⟩

theorem valFold_no_other (outs : List StepOut)
    (h : ∀ o ∈ outs, o ≠ StepOut.other) :
    ∀ acc : List String × List ℚ, ∃ msgs ls,
      valFold outs acc = .ok (msgs, ls)
      ∧ ls.length = acc.2.length + outs.countP (fun o => yieldsLoss o) := by
  induction outs with
  | nil => intro acc; exact ⟨acc.1, acc.2, rfl, by simp⟩
  | cons o rest ih =>
    intro acc
    have hrest : ∀ o ∈ rest, o ≠ StepOut.other := fun o ho =>
      h o (List.mem_cons_of_mem _ ho)
    cases o with
    | tensor v =>
      obtain ⟨msgs, ls, heq, hlen⟩ := ih hrest (acc.1, acc.2 ++ [v])
      refine ⟨msgs, ls, heq, ?_⟩
      rw [hlen]
      simp [yieldsLoss, List.countP_cons]
      omega
    | dict m =>
      cases hm : m.lookup "loss" with
      | some v =>
        obtain ⟨msgs, ls, heq, hlen⟩ := ih hrest (acc.1, acc.2 ++ [v])
        refine ⟨msgs, ls, ?_, ?_⟩
        · simpa [valFold, hm] using heq
        · rw [hlen]
          simp [yieldsLoss, List.countP_cons, hm]
          omega
      | none =>
        obtain ⟨msgs, ls, heq, hlen⟩ := ih hrest
          (acc.1 ++ ["\nif the validation outputs is a dictionary, it must has a key named 'loss'.\n"],
            acc.2)
        refine ⟨msgs, ls, ?_, ?_⟩
        · simpa [valFold, hm] using heq
        · rw [hlen]
          simp [yieldsLoss, List.countP_cons, hm]
    | other =>
      exact absurd rfl (h StepOut.other (List.mem_cons_self _ _))

/-- C10 amended: the division `sum(loss_list)/len(loss_list)` is
well-defined not when the loader is merely non-empty, but when at least
one validation batch yields a loss (a Tensor, or a dict with a `"loss"`
key) and no batch output is of a non-Tensor non-dict type (which would
raise `TypeError` before the division). -/
theorem validation_mean_loss_precondition (outs : List StepOut)
    (h1 : ∀ o ∈ outs, o ≠ StepOut.other)
    (h2 : 0 < outs.countP (fun o => yieldsLoss o)) :
    ∃ msgs v, validationEpoch outs = .ok (msgs, v) := by
  obtain ⟨msgs, ls, heq, hlen⟩ := valFold_no_other outs h1 ([], [])
  refine ⟨msgs, ls.sum / (ls.length : ℚ), ?_⟩
  have hpos : ls.length ≠ 0 := by
    rw [hlen]
    have h0 : (([], []) : List String × List ℚ).2.length = 0 := rfl
    omega
  simp [validationEpoch, heq, hpos]

/-- Witness for the amended C10 at a one-Tensor loader. -/
theorem validation_mean_loss_precondition_witness :
    (∀ o ∈ [StepOut.tensor 0], o ≠ StepOut.other)
      ∧ 0 < [StepOut.tensor 0].countP (fun o => yieldsLoss o)
      ∧ ∃ msgs v, validationEpoch [StepOut.tensor 0] = .ok (msgs, v) := by
  refine ⟨by simp, by simp [yieldsLoss], ?_⟩
  exact validation_mean_loss_precondition _ (by simp) (by simp [yieldsLoss])

-- ### C9

/-- C9: `training_step` and `validation_step` of `ConvLSTM_MovingMNIST`
perform the identical patch-reshape / forward(out_len=10) /
patch-reshape-back / clamp / MSE pipeline, hence compute the same loss on
every input, label and model. -/
theorem training_validation_step_agree (fwd : Tensor5 → ℕ → Tensor5)
    (rp rpb : Tensor5 → Tensor5) (inputs labels : Tensor5) :
    trainingStep fwd rp rpb inputs labels
      = validationStep fwd rp rpb inputs labels := rfl

-- ### C8

/-- C8: the output tensor of `ConvLSTM_MovingMNIST` is clamped to `[0, 1]`
before `predict_step` returns it, and `training_step` / `validation_step`
compute their MSE loss against exactly that clamped tensor, so every
element of the output lies in `[0, 1]`. -/
theorem step_outputs_clamped (fwd : Tensor5 → ℕ → Tensor5)
    (rp rpb : Tensor5 → Tensor5) (inputs labels : Tensor5) (a b c d e : ℕ) :
    0 ≤ (predictStep fwd rp rpb inputs).data a b c d e
    ∧ (predictStep fwd rp rpb inputs).data a b c d e ≤ 1
    ∧ trainingStep fwd rp rpb inputs labels
        = mse5 (predictStep fwd rp rpb inputs) labels
    ∧ validationStep fwd rp rpb inputs labels
        = mse5 (predictStep fwd rp rpb inputs) labels := by
  refine ⟨?_, ?_, rfl, rfl⟩
  · exact le_min (le_max_right _ _) zero_le_one
  · exact min_le_right _ _

-- ### C2

theorem encoderForward_eq_encStates (ecells : List Cell) (hl : List ℕ)
    (inputs : Tensor5) :
    encoderForward ecells hl inputs = encStates ecells hl inputs inputs.d1 := by
  have key : ∀ n, (List.range n).foldl
      (fun st s => stepFrom ecells (inputs.slice s) st.1 st.2)
      (encInit hl inputs.d0 inputs.d3 inputs.d4)
    = encStates ecells hl inputs n := by
    intro n
    induction n with
    | zero => rfl
    | succ n ih =>
      rw [List.range_succ, List.foldl_append]
      simp only [List.foldl_cons, List.foldl_nil, ih]
      rfl
  exact key inputs.d1

theorem stepFrom_length (cells : List Cell) :
    ∀ (x : Tensor4) (h c : List Tensor4),
    h.length = cells.length → c.length = cells.length →
    (stepFrom cells x h c).1.length = cells.length
    ∧ (stepFrom cells x h c).2.length = cells.length := by
  induction cells with
  | nil =>
    intro x h c hh hc
    cases h with
    | nil => cases c <;> exact ⟨rfl, rfl⟩
    | cons h0 hs => simp at hh
  | cons cl cs ih =>
    intro x h c hh hc
    cases h with
    | nil => simp at hh
    | cons h0 hs =>
      cases c with
      | nil => simp at hc
      | cons c0 ct =>
        have IH := ih (cl x h0 c0).1 hs ct (by simpa using hh) (by simpa using hc)
        simp only [stepFrom, List.length_cons]
        exact ⟨by rw [IH.1], by rw [IH.2]⟩

theorem stepFrom_getD (cells : List Cell) :
    ∀ (x : Tensor4) (h c : List Tensor4) (i : ℕ),
    h.length = cells.length → c.length = cells.length → i < cells.length →
    (stepFrom cells x h c).1.getD i t4dflt
        = ((cells.getD i cellDflt)
            (if i = 0 then x else (stepFrom cells x h c).1.getD (i - 1) t4dflt)
            (h.getD i t4dflt) (c.getD i t4dflt)).1
    ∧ (stepFrom cells x h c).2.getD i t4dflt
        = ((cells.getD i cellDflt)
            (if i = 0 then x else (stepFrom cells x h c).1.getD (i - 1) t4dflt)
            (h.getD i t4dflt) (c.getD i t4dflt)).2 := by
  induction cells with
  | nil =>
    intro x h c i hh hc hi
    exact absurd hi (by simp)
  | cons cl cs ih =>
    intro x h c i hh hc hi
    cases h with
    | nil => simp at hh
    | cons h0 hs =>
    cases c with
    | nil => simp at hc
    | cons c0 ct =>
    have hstep : stepFrom (cl :: cs) x (h0 :: hs) (c0 :: ct)
        = ((cl x h0 c0).1 :: (stepFrom cs (cl x h0 c0).1 hs ct).1,
            (cl x h0 c0).2 :: (stepFrom cs (cl x h0 c0).1 hs ct).2) := rfl
    cases i with
    | zero => rw [hstep]; exact ⟨rfl, rfl⟩
    | succ j =>
      have IH := ih (cl x h0 c0).1 hs ct j (by simpa using hh)
        (by simpa using hc) (by simpa using hi)
      have hprev : ((cl x h0 c0).1 :: (stepFrom cs (cl x h0 c0).1 hs ct).1).getD j t4dflt
          = if j = 0 then (cl x h0 c0).1
            else (stepFrom cs (cl x h0 c0).1 hs ct).1.getD (j - 1) t4dflt := by
        cases j with
        | zero => rfl
        | succ k => simp
      rw [hstep]
      simp only [List.getD_cons_succ, List.getD_cons_zero, Nat.succ_ne_zero,
        if_false, Nat.add_sub_cancel]
      rw [hprev]
      exact IH

/-- C2: `Encoder.forward` initialises one all-zero hidden and cell state
per layer, loops over the `S` time steps in order, and within a step the
first cell consumes the frame with its own previous states while each
layer `i ≥ 1` consumes the just-updated hidden state of layer `i - 1`
with its own previous states; the final state lists are returned. -/
theorem encoder_forward_layered_recurrence (ecells : List Cell)
    (hl : List ℕ) (inputs : Tensor5) (x : Tensor4) (h c : List Tensor4)
    (s i : ℕ) (hh : h.length = ecells.length) (hc : c.length = ecells.length)
    (hi : i < ecells.length) :
    EncoderForwardSpec ecells hl inputs x h c s i := by
  obtain ⟨hg1, hg2⟩ := stepFrom_getD ecells x h c i hh hc hi
  obtain ⟨hn1, hn2⟩ := stepFrom_length ecells x h c hh hc
  exact ⟨encoderForward_eq_encStates ecells hl inputs, rfl, rfl, hn1, hn2, hg1, hg2⟩

/-- Witness for C2 at a concrete one-layer encoder. -/
theorem encoder_forward_layered_recurrence_witness :
    EncoderForwardSpec [cellDflt] [1] ⟨1, 1, 1, 1, 1, fun _ _ _ _ _ => 0⟩
      t4dflt [t4dflt] [t4dflt] 0 0 :=
  encoder_forward_layered_recurrence _ _ _ _ _ _ _ _ rfl rfl (by decide)

-- ### C1 (corrected)

theorem stepFrom_shapes (cells : List Cell) :
    ∀ (x : Tensor4) (h c : List Tensor4),
    (∀ cl ∈ cells, CellShapePreserving cl) →
    h.length = cells.length → c.length = cells.length →
    (stepFrom cells x h c).1.map Tensor4.shape4 = h.map Tensor4.shape4
    ∧ (stepFrom cells x h c).2.map Tensor4.shape4 = h.map Tensor4.shape4 := by
  induction cells with
  | nil =>
    intro x h c _ hh hc
    have hh0 : h = [] := List.length_eq_zero.mp (by simpa using hh)
    have hc0 : c = [] := List.length_eq_zero.mp (by simpa using hc)
    subst hh0; subst hc0
    exact ⟨rfl, rfl⟩
  | cons cl cs ih =>
    intro x h c hsp hh hc
    cases h with
    | nil => simp at hh
    | cons h0 hs =>
    cases c with
    | nil => simp at hc
    | cons c0 ct =>
    have hsp0 := hsp cl (List.mem_cons_self _ _)
    have hspr : ∀ m ∈ cs, CellShapePreserving m := fun m hm =>
      hsp m (List.mem_cons_of_mem _ hm)
    have IH := ih (cl x h0 c0).1 hs ct hspr (by simpa using hh) (by simpa using hc)
    have h1 := (hsp0 x h0 c0).1
    have h2 := (hsp0 x h0 c0).2
    have hstep : stepFrom (cl :: cs) x (h0 :: hs) (c0 :: ct)
        = ((cl x h0 c0).1 :: (stepFrom cs (cl x h0 c0).1 hs ct).1,
            (cl x h0 c0).2 :: (stepFrom cs (cl x h0 c0).1 hs ct).2) := rfl
    rw [hstep]
    exact ⟨by simp [h1, IH.1], by simp [h2, IH.2]⟩

theorem shape4_getD_congr (l : List Tensor4) :
    ∀ (l' : List Tensor4),
    l.map Tensor4.shape4 = l'.map Tensor4.shape4 → ∀ i : ℕ,
    (l.getD i t4dflt).shape4 = (l'.getD i t4dflt).shape4 := by
  induction l with
  | nil =>
    intro l' hm i
    cases l' with
    | nil => rfl
    | cons b bs => simp at hm
  | cons a as ih =>
    intro l' hm i
    cases l' with
    | nil => simp at hm
    | cons b bs =>
      simp only [List.map_cons, List.cons.injEq] at hm
      cases i with
      | zero => simpa using hm.1
      | succ j => simpa using ih bs hm.2 j

theorem encStates_shapes (ecells : List Cell) (hl : List ℕ) (inputs : Tensor5)
    (hsp : ∀ cl ∈ ecells, CellShapePreserving cl)
    (hle : ecells.length = hl.length) (n : ℕ) :
    (encStates ecells hl inputs n).1.map Tensor4.shape4
        = hl.map (fun ch => (inputs.d0, ch, inputs.d3, inputs.d4))
    ∧ (encStates ecells hl inputs n).2.map Tensor4.shape4
        = hl.map (fun ch => (inputs.d0, ch, inputs.d3, inputs.d4)) := by
  induction n with
  | zero =>
    constructor <;>
      simp [encStates, encInit, List.map_map, Function.comp_def,
        Tensor4.shape4, zeros4]
  | succ n ih =>
    have hh : (encStates ecells hl inputs n).1.length = ecells.length := by
      have := congrArg List.length ih.1
      simp only [List.length_map] at this
      omega
    have hc : (encStates ecells hl inputs n).2.length = ecells.length := by
      have := congrArg List.length ih.2
      simp only [List.length_map] at this
      omega
    have hstep := stepFrom_shapes ecells (inputs.slice n)
      (encStates ecells hl inputs n).1 (encStates ecells hl inputs n).2
      hsp hh hc
    exact ⟨hstep.1.trans ih.1, hstep.2.trans ih.1⟩

theorem cat1_dims (l : List Tensor4) :
    (cat1 l).d0 = (l.getD 0 t4dflt).d0
    ∧ (cat1 l).d2 = (l.getD 0 t4dflt).d2
    ∧ (cat1 l).d3 = (l.getD 0 t4dflt).d3 := by
  cases l with
  | nil => exact ⟨rfl, rfl, rfl⟩
  | cons t ts => exact ⟨rfl, rfl, rfl⟩

theorem forecastIter_spec (fcells : List Cell) (convLast : Tensor4 → Tensor4)
    (inC b hgt wid : ℕ)
    (hsp : ∀ cl ∈ fcells, CellShapePreserving cl)
    (hconv : ∀ t : Tensor4, (convLast t).shape4 = (t.d0, inC, t.d2, t.d3))
    (n : ℕ) :
    ∀ (h c : List Tensor4),
    h.length = fcells.length → c.length = fcells.length →
    (forecastIter fcells convLast inC b hgt wid n h c).1.map Tensor4.shape4
        = h.map Tensor4.shape4
    ∧ (forecastIter fcells convLast inC b hgt wid n h c).2.2.length = n
    ∧ ∀ p ∈ (forecastIter fcells convLast inC b hgt wid n h c).2.2,
        p.shape4 = ((h.getD 0 t4dflt).d0, inC,
          (h.getD 0 t4dflt).d2, (h.getD 0 t4dflt).d3) := by
  induction n with
  | zero =>
    intro h c hh hc
    exact ⟨rfl, rfl, by simp [forecastIter]⟩
  | succ n ih =>
    intro h c hh hc
    have hstep := stepFrom_shapes fcells (zeros4 b inC hgt wid) h c hsp hh hc
    have hh' : (stepFrom fcells (zeros4 b inC hgt wid) h c).1.length
        = fcells.length := by
      have := congrArg List.length hstep.1
      simp only [List.length_map] at this
      omega
    have hc' : (stepFrom fcells (zeros4 b inC hgt wid) h c).2.length
        = fcells.length := by
      have := congrArg List.length hstep.2
      simp only [List.length_map] at this
      omega
    have IH := ih (stepFrom fcells (zeros4 b inC hgt wid) h c).1
      (stepFrom fcells (zeros4 b inC hgt wid) h c).2 hh' hc'
    have hunf : forecastIter fcells convLast inC b hgt wid (n + 1) h c
        = ((forecastIter fcells convLast inC b hgt wid n
              (stepFrom fcells (zeros4 b inC hgt wid) h c).1
              (stepFrom fcells (zeros4 b inC hgt wid) h c).2).1,
            (forecastIter fcells convLast inC b hgt wid n
              (stepFrom fcells (zeros4 b inC hgt wid) h c).1
              (stepFrom fcells (zeros4 b inC hgt wid) h c).2).2.1,
            convLast (cat1 (stepFrom fcells (zeros4 b inC hgt wid) h c).1)
              :: (forecastIter fcells convLast inC b hgt wid n
                  (stepFrom fcells (zeros4 b inC hgt wid) h c).1
                  (stepFrom fcells (zeros4 b inC hgt wid) h c).2).2.2) := rfl
    have hhead : ((stepFrom fcells (zeros4 b inC hgt wid) h c).1.getD 0 t4dflt).shape4
        = (h.getD 0 t4dflt).shape4 := shape4_getD_congr _ _ hstep.1 0
    have hhead' : ((stepFrom fcells (zeros4 b inC hgt wid) h c).1.getD 0 t4dflt).d0
          = (h.getD 0 t4dflt).d0
        ∧ ((stepFrom fcells (zeros4 b inC hgt wid) h c).1.getD 0 t4dflt).d2
          = (h.getD 0 t4dflt).d2
        ∧ ((stepFrom fcells (zeros4 b inC hgt wid) h c).1.getD 0 t4dflt).d3
          = (h.getD 0 t4dflt).d3 := by
      simp only [Tensor4.shape4, Prod.mk.injEq] at hhead
      exact ⟨hhead.1, hhead.2.2.1, hhead.2.2.2⟩
    rw [hunf]
    refine ⟨IH.1.trans hstep.1, by simp [IH.2.1], ?_⟩
    intro p hp
    rcases List.mem_cons.mp hp with hp0 | hps
    · subst hp0
      have hc1 := cat1_dims (stepFrom fcells (zeros4 b inC hgt wid) h c).1
      rw [hconv, hc1.1, hc1.2.1, hc1.2.2, hhead'.1, hhead'.2.1, hhead'.2.2]
    · have := IH.2.2 p hps
      rw [this, hhead'.1, hhead'.2.1, hhead'.2.2]

theorem map_shape_getD (l : List Tensor4) (g : ℕ → ℕ × ℕ × ℕ × ℕ)
    (hl' : List ℕ) (hm : l.map Tensor4.shape4 = hl'.map g) (hne : hl' ≠ []) :
    (l.getD 0 t4dflt).shape4 = g (hl'.getD 0 0) := by
  cases hl' with
  | nil => exact absurd rfl hne
  | cons a as =>
    cases l with
    | nil => simp at hm
    | cons t ts =>
      simp only [List.map_cons, List.cons.injEq] at hm
      simpa using hm.1

theorem forecastForward_of_cons (fcells : List Cell)
    (convLast : Tensor4 → Tensor4) (inC : ℕ) (h c : List Tensor4)
    (out_len : ℕ) (q : Tensor4) (qs : List Tensor4)
    (hq : (forecastIter fcells convLast inC (h.getD 0 t4dflt).d0
        (h.getD 0 t4dflt).d2 (h.getD 0 t4dflt).d3 out_len h c).2.2 = q :: qs) :
    forecastForward fcells convLast inC h c out_len
      = some (permute10234 (stack0 (q :: qs))) := by
  simp only [forecastForward]
  rw [hq]

/-- C1 amended: for every positive `out_len`, `ConvLSTM.forward` runs the
encoder over the whole input sequence, rolls the resulting states forward
`out_len` times feeding an all-zero frame at each step, and returns a
tensor of shape `(batch, out_len, in_channels, height, width)`. -/
theorem convlstm_forward_phases_shape (ecells fcells : List Cell)
    (convLast : Tensor4 → Tensor4) (inC : ℕ) (hl : List ℕ)
    (inputs : Tensor5) (out_len n b hgt wid : ℕ) (h c : List Tensor4)
    (he : ∀ cl ∈ ecells, CellShapePreserving cl)
    (hf : ∀ cl ∈ fcells, CellShapePreserving cl)
    (hconv : ∀ t : Tensor4, (convLast t).shape4 = (t.d0, inC, t.d2, t.d3))
    (hle : ecells.length = hl.length) (hlf : fcells.length = hl.length)
    (hhl : hl ≠ []) (hout : 1 ≤ out_len) :
    ConvLSTMForwardSpec ecells fcells convLast inC hl inputs out_len
      n b hgt wid h c := by
  refine ⟨rfl, rfl, ?_⟩
  have henc := encStates_shapes ecells hl inputs he hle inputs.d1
  have hsh1 : (encoderForward ecells hl inputs).1.map Tensor4.shape4
      = hl.map fun ch => (inputs.d0, ch, inputs.d3, inputs.d4) := by
    rw [encoderForward_eq_encStates]
    exact henc.1
  have hsh2 : (encoderForward ecells hl inputs).2.map Tensor4.shape4
      = hl.map fun ch => (inputs.d0, ch, inputs.d3, inputs.d4) := by
    rw [encoderForward_eq_encStates]
    exact henc.2
  have hlen1 : (encoderForward ecells hl inputs).1.length = fcells.length := by
    have := congrArg List.length hsh1
    simp only [List.length_map] at this
    omega
  have hlen2 : (encoderForward ecells hl inputs).2.length = fcells.length := by
    have := congrArg List.length hsh2
    simp only [List.length_map] at this
    omega
  have hhead := map_shape_getD _ _ hl hsh1 hhl
  have hcomp : ((encoderForward ecells hl inputs).1.getD 0 t4dflt).d0 = inputs.d0
      ∧ ((encoderForward ecells hl inputs).1.getD 0 t4dflt).d2 = inputs.d3
      ∧ ((encoderForward ecells hl inputs).1.getD 0 t4dflt).d3 = inputs.d4 := by
    simp only [Tensor4.shape4, Prod.mk.injEq] at hhead
    exact ⟨hhead.1, hhead.2.2.1, hhead.2.2.2⟩
  have hFI := forecastIter_spec fcells convLast inC
    ((encoderForward ecells hl inputs).1.getD 0 t4dflt).d0
    ((encoderForward ecells hl inputs).1.getD 0 t4dflt).d2
    ((encoderForward ecells hl inputs).1.getD 0 t4dflt).d3
    hf hconv out_len (encoderForward ecells hl inputs).1
    (encoderForward ecells hl inputs).2 hlen1 hlen2
  obtain ⟨q, qs, hqq⟩ : ∃ q qs,
      (forecastIter fcells convLast inC
        ((encoderForward ecells hl inputs).1.getD 0 t4dflt).d0
        ((encoderForward ecells hl inputs).1.getD 0 t4dflt).d2
        ((encoderForward ecells hl inputs).1.getD 0 t4dflt).d3
        out_len (encoderForward ecells hl inputs).1
        (encoderForward ecells hl inputs).2).2.2 = q :: qs := by
    cases hcase : (forecastIter fcells convLast inC
        ((encoderForward ecells hl inputs).1.getD 0 t4dflt).d0
        ((encoderForward ecells hl inputs).1.getD 0 t4dflt).d2
        ((encoderForward ecells hl inputs).1.getD 0 t4dflt).d3
        out_len (encoderForward ecells hl inputs).1
        (encoderForward ecells hl inputs).2).2.2 with
    | nil =>
      exfalso
      have hlen := hFI.2.1
      rw [hcase] at hlen
      simp at hlen
      omega
    | cons q qs => exact ⟨q, qs, rfl⟩
  have hq_mem : q ∈ (forecastIter fcells convLast inC
      ((encoderForward ecells hl inputs).1.getD 0 t4dflt).d0
      ((encoderForward ecells hl inputs).1.getD 0 t4dflt).d2
      ((encoderForward ecells hl inputs).1.getD 0 t4dflt).d3
      out_len (encoderForward ecells hl inputs).1
      (encoderForward ecells hl inputs).2).2.2 := by
    rw [hqq]
    exact List.mem_cons_self _ _
  have hqshape := hFI.2.2 q hq_mem
  have hqc : q.d0 = inputs.d0 ∧ q.d1 = inC ∧ q.d2 = inputs.d3 ∧ q.d3 = inputs.d4 := by
    rw [hcomp.1, hcomp.2.1, hcomp.2.2] at hqshape
    simp only [Tensor4.shape4, Prod.mk.injEq] at hqshape
    exact hqshape
  have hlenq : qs.length + 1 = out_len := by
    have hlen := hFI.2.1
    rw [hqq] at hlen
    simpa using hlen
  refine ⟨permute10234 (stack0 (q :: qs)), ?_, ?_⟩
  · exact forecastForward_of_cons fcells convLast inC
      (encoderForward ecells hl inputs).1 (encoderForward ecells hl inputs).2
      out_len q qs hqq
  · simp only [Tensor5.shape5, permute10234, stack0, List.getD_cons_zero,
      List.length_cons, Prod.mk.injEq]
    exact ⟨hqc.1, hlenq, hqc.2.1, hqc.2.2.1, hqc.2.2.2⟩

/-- Witness for the amended C1 at a concrete one-layer network. -/
theorem convlstm_forward_phases_shape_witness :
    ConvLSTMForwardSpec [fun _ h _ => (h, h)] [fun _ h _ => (h, h)]
      (fun t => ⟨t.d0, 1, t.d2, t.d3, fun _ _ _ _ => 0⟩) 1 [1]
      ⟨1, 1, 1, 1, 1, fun _ _ _ _ _ => 0⟩ 1 0 1 1 1 [t4dflt] [t4dflt] :=
  convlstm_forward_phases_shape _ _ _ _ _ _ _ _ _ _ _ _ _
    (by
      intro cl hcl
      rw [List.mem_singleton] at hcl
      subst hcl
      intro x h c
      exact ⟨rfl, rfl⟩)
    (by
      intro cl hcl
      rw [List.mem_singleton] at hcl
      subst hcl
      intro x h c
      exact ⟨rfl, rfl⟩)
    (fun t => rfl) rfl rfl (by simp) (le_refl 1)

/-- C1 counterexample: at `out_len = 0` the prediction list is empty and
`torch.stack` raises instead of returning a `(B, 0, C, H, W)` tensor, so
the claim fails for that `out_len`. -/
theorem convlstm_forward_out_len_zero :
    convlstmForward [cellDflt] [cellDflt]
      (fun t => ⟨t.d0, 1, t.d2, t.d3, fun _ _ _ _ => 0⟩) 1 [1]
      ⟨1, 1, 1, 1, 1, fun _ _ _ _ _ => 0⟩ 0 = none := rfl
